import Mathlib

/-!
Verification development for a C++ repository consisting of a custom
memory resource (`src/include/allocator.h`, class `CustomMemoryResource`)
and an allocator-aware singly linked list (`src/include/list.h`, class
template `SingleLinkedList<T>`).

The embedding is shallow:

* `CustomMemoryResource` keeps its block registry in a
  `std::map<void*, BlockInfo>`; we model addresses as `Nat` and the map
  as an association list sorted in strictly ascending key (= address)
  order, which is exactly the iteration order of the `std::map`.
  The upstream allocator (`parent_allocator`) is modelled by passing the
  address it would return as an explicit argument to `do_allocate`.
* A C++ exception (`throw std::logic_error`) is modelled by an error
  status paired with the post-state of the object; in every throwing
  path of the source the object is not mutated before the throw, so the
  post-state on error is the pre-state.
* `SingleLinkedList<T>` is modelled by the sequence of its nodes (each
  node carrying its value and the identity of the memory resource its
  storage was obtained from), the `list_size` counter, and the identity
  of the resource held by its `alloc` member.  Memory-resource identity
  is a `Nat`; `do_is_equal` is pointer identity in the source, hence
  `Nat` equality here.  Node pointers (`Node*` held by iterators) are
  modelled as positions: `none` is the null pointer, `some i` a pointer
  to the i-th node of the chain.
-/

/-- `BlockInfo` from `allocator.h`: recorded size, alignment and
active/free state of one tracked block. -/
structure BlockInfo where
  size : Nat
  alignment : Nat
  active : Bool
deriving DecidableEq, Repr

/-- The two-argument `BlockInfo(s, a)` constructor used by
`do_allocate` when registering a fresh upstream block; it marks the
block active. -/
def BlockInfo.fresh (s a : Nat) : BlockInfo :=
  { size := s, alignment := a, active := true }

/-- The registry type: `std::map<void*, BlockInfo>` as an association
list in ascending address order. -/
abbrev Registry := List (Nat × BlockInfo)

/-- `CustomMemoryResource`: the tracked-block registry.  The upstream
allocator is not part of the state; `do_allocate` receives the address
the upstream would hand out as a parameter. -/
structure CustomMemoryResource where
  allocated_blocks : Registry
deriving DecidableEq, Repr

/-- The `std::map` ordering invariant: keys strictly ascending. -/
def RegSorted (bs : Registry) : Prop :=
  List.Pairwise (· < ·) (bs.map Prod.fst)

instance (bs : Registry) : Decidable (RegSorted bs) := by
  unfold RegSorted; infer_instance

/-- `allocated_blocks.find(ptr)` / registry lookup by address. -/
def lookupBlock : Registry → Nat → Option BlockInfo
  | [], _ => none
  | (k, info) :: rest, p => if k = p then some info else lookupBlock rest p

/-- `block_fits` from `allocator.h`:
`!info.active && info.size >= bytes && info.alignment >= alignment`. -/
def block_fits (info : BlockInfo) (bytes alignment : Nat) : Bool :=
  !info.active && decide (bytes ≤ info.size) && decide (alignment ≤ info.alignment)

/-- The reuse scan of `do_allocate`: walk the registry in map (address)
order; at the first block that fits, mark it active and return its
address together with the updated registry; `none` if no block fits. -/
def allocateScan : Registry → Nat → Nat → Option (Nat × Registry)
  | [], _, _ => none
  | (k, info) :: rest, bytes, alignment =>
    if block_fits info bytes alignment then
      some (k, (k, { info with active := true }) :: rest)
    else
      (allocateScan rest bytes alignment).map (fun r => (r.1, (k, info) :: r.2))

/-- `allocated_blocks.emplace(ptr, info)`: ordered insertion that keeps
the existing entry if the key is already present. -/
def mapEmplace : Registry → Nat → BlockInfo → Registry
  | [], k, v => [(k, v)]
  | (k0, v0) :: rest, k, v =>
    if k < k0 then (k, v) :: (k0, v0) :: rest
    else if k = k0 then (k0, v0) :: rest
    else (k0, v0) :: mapEmplace rest k v

/-- `CustomMemoryResource::do_allocate`.  `upstream` is the address the
parent allocator returns when no tracked block can be reused. -/
def do_allocate (r : CustomMemoryResource) (bytes alignment upstream : Nat) :
    Nat × CustomMemoryResource :=
  match allocateScan r.allocated_blocks bytes alignment with
  | some (p, bs) => (p, ⟨bs⟩)
  | none => (upstream, ⟨mapEmplace r.allocated_blocks upstream (BlockInfo.fresh bytes alignment)⟩)

/-- Outcome of `do_deallocate`: normal return, the unknown-pointer
diagnostic no-op, or the thrown `std::logic_error` on double free. -/
inductive DeallocStatus where
  | ok
  | unknownPointer
  | doubleFree
deriving DecidableEq, Repr

/-- The body of `do_deallocate` acting on the registry: find the
address; unknown pointers are a no-op, a free block raises the
double-free error (before any mutation), an active block is marked
free and retained. -/
def deallocGo : Registry → Nat → DeallocStatus × Registry
  | [], _ => (.unknownPointer, [])
  | (k, info) :: rest, p =>
    if k = p then
      if info.active then (.ok, (k, { info with active := false }) :: rest)
      else (.doubleFree, (k, info) :: rest)
    else
      let r := deallocGo rest p
      (r.1, (k, info) :: r.2)

/-- `CustomMemoryResource::do_deallocate`.  The `bytes` and `alignment`
parameters are accepted but discarded (`(void)bytes; (void)alignment;`
in the source). -/
def do_deallocate (r : CustomMemoryResource) (ptr : Nat) (_bytes _alignment : Nat) :
    DeallocStatus × CustomMemoryResource :=
  let res := deallocGo r.allocated_blocks ptr
  (res.1, ⟨res.2⟩)

/-- `CustomMemoryResource::do_is_equal`: pointer identity of the
resource, i.e. equality of resource identities. -/
def do_is_equal (r other : Nat) : Bool := r == other

/-! ## The singly linked list (`src/include/list.h`) -/

/-- One node of `SingleLinkedList<T>`: its value, tagged with the
identity of the memory resource its storage was allocated from (the
resource of the `alloc` member at `create_node` time). -/
structure LNode (T : Type) where
  value : T
  res : Nat
deriving DecidableEq, Repr

/-- `SingleLinkedList<T>`: the chain reachable from `head` (as a finite
sequence, acyclic by construction), the `list_size` counter, and the
identity of the resource the `alloc` member is bound to. -/
structure SLList (T : Type) where
  elems : List (LNode T)
  list_size : Nat
  alloc : Nat
deriving DecidableEq, Repr

/-- `SingleLinkedList(resource)`: a fresh empty list bound to the given
resource. -/
def SLList.mkEmpty (T : Type) (resource : Nat) : SLList T :=
  { elems := [], list_size := 0, alloc := resource }

/-- `copy_nodes`: rebuild the chain as a copy of `other`'s values, each
node allocated through `dst`'s own `alloc`; `list_size` is incremented
once per node copied.  (In the source it is only invoked on an empty
chain; the embedding mirrors the overwrite of `head` and the counter
increments literally.) -/
def copy_nodes {T : Type} (dst other : SLList T) : SLList T :=
  { dst with
      elems := other.elems.map (fun n => { value := n.value, res := dst.alloc }),
      list_size := dst.list_size + other.elems.length }

/-- `destroy_all` / the body of `clear()`: destroy every node, reset
head and count. -/
def destroy_all {T : Type} (l : SLList T) : SLList T :=
  { l with elems := [], list_size := 0 }

/-- `SingleLinkedList::clear`. -/
def SLList.clear {T : Type} (l : SLList T) : SLList T := destroy_all l

/-- Copy constructor: adopts the source's allocator, then deep-copies
the nodes through it. -/
def copyCtor {T : Type} (other : SLList T) : SLList T :=
  copy_nodes (SLList.mkEmpty T other.alloc) other

/-- Move constructor: steals head, count and allocator; the source is
left empty (head null, count zero) with its allocator unchanged.
Returns (new list, source afterwards). -/
def moveCtor {T : Type} (other : SLList T) : SLList T × SLList T :=
  ({ elems := other.elems, list_size := other.list_size, alloc := other.alloc },
   { other with elems := [], list_size := 0 })

/-- `SingleLinkedList::swap`: exchanges `head` and `list_size` only —
the `alloc` members stay where they are. -/
def SLList.swap {T : Type} (a b : SLList T) : SLList T × SLList T :=
  ({ a with elems := b.elems, list_size := b.list_size },
   { b with elems := a.elems, list_size := a.list_size })

/-- Copy assignment `operator=(const SingleLinkedList&)` for two
distinct list objects (the `this != &other` guard is object identity,
which the value embedding takes as given).  Equal allocators: destroy
and re-copy in place.  Different allocators: build a full copy `temp`
with the source's allocator and `swap(temp)`. -/
def copyAssign {T : Type} (a other : SLList T) : SLList T :=
  if a.alloc = other.alloc then
    copy_nodes (destroy_all a) other
  else
    (SLList.swap a (copyCtor other)).1

/-- Move assignment `operator=(SingleLinkedList&&)` for two distinct
list objects.  Equal allocators: steal head/count and empty the source.
Different allocators: destroy the target and deep-copy the source's
values through the target's own allocator, leaving the source
untouched.  Returns (target afterwards, source afterwards). -/
def moveAssign {T : Type} (a other : SLList T) : SLList T × SLList T :=
  if a.alloc = other.alloc then
    ({ a with elems := other.elems, list_size := other.list_size },
     { other with elems := [], list_size := 0 })
  else
    (copy_nodes (destroy_all a) other, other)

/-- `push_front`: a new node holding `value` allocated from `alloc`
becomes the head; count is incremented. -/
def push_front {T : Type} (l : SLList T) (value : T) : SLList T :=
  { l with
      elems := { value := value, res := l.alloc } :: l.elems,
      list_size := l.list_size + 1 }

/-- `pop_front`: throws `std::logic_error` on an empty list (head
null), otherwise removes the head node and decrements count. -/
def pop_front {T : Type} (l : SLList T) : Except String (SLList T) :=
  match l.elems with
  | [] => .error "List is empty"
  | _ :: rest => .ok { l with elems := rest, list_size := l.list_size - 1 }

/-- An iterator's `Node* current`: `none` is the null pointer, `some i`
points at the i-th node of the chain.  Iterator `operator==` compares
these pointers. -/
abbrev Cursor := Option Nat

/-- `before_begin()`: returns `Iterator(nullptr)`. -/
def before_begin {T : Type} (_l : SLList T) : Cursor := none

/-- `begin()`: returns `Iterator(head)` — null exactly when the list is
empty. -/
def listBegin {T : Type} (l : SLList T) : Cursor :=
  if l.elems.isEmpty then none else some 0

/-- `end()`: returns `Iterator(nullptr)`. -/
def listEnd {T : Type} (_l : SLList T) : Cursor := none

/-- Iterator `operator++`: `if (current) current = current->next` — a
null cursor stays null; otherwise the cursor moves to the successor
node, or to null past the last node. -/
def iterInc {T : Type} (l : SLList T) (c : Cursor) : Cursor :=
  match c with
  | none => none
  | some i => if i + 1 < l.elems.length then some (i + 1) else none

/-- `insert_after(pos, value)`.  A null cursor (`before_begin()`, and
equally `end()`) takes the push-to-front branch and returns a cursor to
the new head.  Otherwise a new node is allocated from `alloc` and
linked after `pos`'s node.  The source's second check
`if (!pos.current) throw std::logic_error("Invalid iterator")`
duplicates the first branch's condition and is unreachable, so no error
case arises. -/
def insert_after {T : Type} (l : SLList T) (pos : Cursor) (value : T) :
    Except String (SLList T × Cursor) :=
  match pos with
  | none => .ok (push_front l value, some 0)
  | some i =>
      .ok ({ l with
               elems := l.elems.take (i + 1)
                          ++ { value := value, res := l.alloc } :: l.elems.drop (i + 1),
               list_size := l.list_size + 1 },
           some (i + 1))

/-- `erase_after(pos)`: throws `std::logic_error` unless `pos` holds a
live node that has a successor; otherwise unlinks and destroys that
successor, decrements count, and returns a cursor to the node after the
erased one (null if none). -/
def erase_after {T : Type} (l : SLList T) (pos : Cursor) :
    Except String (SLList T × Cursor) :=
  match pos with
  | none => .error "Invalid iterator for erase_after"
  | some i =>
      if i + 1 < l.elems.length then
        .ok ({ l with
                 elems := l.elems.take (i + 1) ++ l.elems.drop (i + 2),
                 list_size := l.list_size - 1 },
             if i + 1 < l.elems.length - 1 then some (i + 1) else none)
      else .error "Invalid iterator for erase_after"

/-- `empty()`: `list_size == 0`. -/
def SLList.empty {T : Type} (l : SLList T) : Bool := l.list_size == 0

/-- `size()`: the maintained counter. -/
def SLList.size {T : Type} (l : SLList T) : Nat := l.list_size

/-- `get_allocator()`: the resource the `alloc` member is bound to. -/
def get_allocator {T : Type} (l : SLList T) : Nat := l.alloc

/-- List states reachable through the public operations of
`SingleLinkedList<T>`: construction, `push_front`, `pop_front`,
`insert_after`, `erase_after`, `clear`, copy/move construction and
copy/move assignment (throwing calls leave the list unchanged and so
produce no new state). -/
inductive Reachable {T : Type} : SLList T → Prop where
  | construct (resource : Nat) : Reachable (SLList.mkEmpty T resource)
  | push_step (l : SLList T) (v : T) : Reachable l → Reachable (push_front l v)
  | pop_step (l l' : SLList T) : Reachable l → pop_front l = .ok l' → Reachable l'
  | insert_step (l : SLList T) (c : Cursor) (v : T) (l' : SLList T) (c' : Cursor) :
      Reachable l → insert_after l c v = .ok (l', c') → Reachable l'
  | erase_step (l : SLList T) (c : Cursor) (l' : SLList T) (c' : Cursor) :
      Reachable l → erase_after l c = .ok (l', c') → Reachable l'
  | clear_step (l : SLList T) : Reachable l → Reachable l.clear
  | copy_ctor_step (l : SLList T) : Reachable l → Reachable (copyCtor l)
  | move_ctor_new (l : SLList T) : Reachable l → Reachable (moveCtor l).1
  | move_ctor_src (l : SLList T) : Reachable l → Reachable (moveCtor l).2
  | copy_assign_step (a b : SLList T) :
      Reachable a → Reachable b → Reachable (copyAssign a b)
  | move_assign_tgt (a b : SLList T) :
      Reachable a → Reachable b → Reachable (moveAssign a b).1
  | move_assign_src (a b : SLList T) :
      Reachable a → Reachable b → Reachable (moveAssign a b).2

/-! ## Helper lemmas about the registry -/

theorem lookupBlock_mem {bs : Registry} {q : Nat} {iq : BlockInfo}
    (h : lookupBlock bs q = some iq) : q ∈ bs.map Prod.fst := by
  induction bs with
  | nil => simp [lookupBlock] at h
  | cons hd tl ih =>
    obtain ⟨k, info⟩ := hd
    by_cases hk : k = q
    · subst hk; simp
    · simp only [lookupBlock, if_neg hk] at h
      simpa using Or.inr (ih h)

theorem regSorted_cons {k : Nat} {info : BlockInfo} {rest : Registry}
    (h : RegSorted ((k, info) :: rest)) :
    (∀ q ∈ rest.map Prod.fst, k < q) ∧ RegSorted rest := by
  unfold RegSorted at h ⊢
  simp only [List.map_cons, List.pairwise_cons] at h
  exact h

theorem allocateScan_mem {bs : Registry} {b a p : Nat} {bs' : Registry}
    (h : allocateScan bs b a = some (p, bs')) : p ∈ bs.map Prod.fst := by
  induction bs generalizing p bs' with
  | nil => simp [allocateScan] at h
  | cons hd tl ih =>
    obtain ⟨k, info⟩ := hd
    by_cases hf : block_fits info b a
    · simp only [allocateScan, if_pos hf, Option.some.injEq, Prod.mk.injEq] at h
      simp [h.1]
    · simp only [allocateScan, if_neg hf, Option.map_eq_some'] at h
      obtain ⟨⟨p', tl'⟩, hscan, heq⟩ := h
      have hp : p' = p := congrArg Prod.fst heq
      simp only [List.map_cons, List.mem_cons]
      exact Or.inr (hp ▸ ih hscan)

/-- When the scan succeeds at `p`, block `p` was tracked, free and
fitting; in the updated registry it is the same block marked active and
every other address is untouched. -/
theorem allocateScan_lookup {bs : Registry} {b a p : Nat} {bs' : Registry}
    (hs : RegSorted bs) (h : allocateScan bs b a = some (p, bs')) :
    ∃ info, lookupBlock bs p = some info ∧ block_fits info b a = true ∧
      lookupBlock bs' p = some { info with active := true } ∧
      ∀ q, q ≠ p → lookupBlock bs' q = lookupBlock bs q := by
  induction bs generalizing p bs' with
  | nil => simp [allocateScan] at h
  | cons hd tl ih =>
    obtain ⟨k, info⟩ := hd
    obtain ⟨hlt, hstl⟩ := regSorted_cons hs
    by_cases hf : block_fits info b a
    · simp only [allocateScan, if_pos hf, Option.some.injEq, Prod.mk.injEq] at h
      obtain ⟨hk, hbs⟩ := h
      subst hk; subst hbs
      refine ⟨info, by simp [lookupBlock], hf, by simp [lookupBlock], ?_⟩
      intro q hq
      simp only [lookupBlock, if_neg (Ne.symm hq)]
    · simp only [allocateScan, if_neg hf, Option.map_eq_some'] at h
      obtain ⟨⟨p', tl'⟩, hscan0, heq⟩ := h
      have hp : p' = p := congrArg Prod.fst heq
      have htl : (k, info) :: tl' = bs' := congrArg Prod.snd heq
      have hscan : allocateScan tl b a = some (p, tl') := hp ▸ hscan0
      obtain ⟨i, hlook, hfits, hlook', hother⟩ := ih hstl hscan
      have hkp : k ≠ p := by
        intro hkp
        exact absurd (hkp ▸ hlt p (allocateScan_mem hscan)) (lt_irrefl p)
      subst htl
      refine ⟨i, ?_, hfits, ?_, ?_⟩
      · simp [lookupBlock, hkp, hlook]
      · simp [lookupBlock, hkp, hlook']
      · intro q hq
        by_cases hkq : k = q
        · simp [lookupBlock, hkq]
        · simp [lookupBlock, hkq, hother q hq]

/-- First fit: when the scan succeeds at `p`, no tracked block at a
smaller address fits the request. -/
theorem allocateScan_first {bs : Registry} {b a p : Nat} {bs' : Registry}
    (hs : RegSorted bs) (h : allocateScan bs b a = some (p, bs')) :
    ∀ q iq, lookupBlock bs q = some iq → q < p → block_fits iq b a = false := by
  induction bs generalizing p bs' with
  | nil => simp [allocateScan] at h
  | cons hd tl ih =>
    obtain ⟨k, info⟩ := hd
    obtain ⟨hlt, hstl⟩ := regSorted_cons hs
    intro q iq hlook hq
    by_cases hf : block_fits info b a
    · simp only [allocateScan, if_pos hf, Option.some.injEq, Prod.mk.injEq] at h
      obtain ⟨hk, -⟩ := h
      subst hk
      by_cases hkq : k = q
      · omega
      · simp only [lookupBlock, if_neg hkq] at hlook
        exact absurd (hlt q (lookupBlock_mem hlook)) (by omega)
    · simp only [allocateScan, if_neg hf, Option.map_eq_some'] at h
      obtain ⟨⟨p', tl'⟩, hscan0, heq⟩ := h
      have hp : p' = p := congrArg Prod.fst heq
      have hscan : allocateScan tl b a = some (p, tl') := hp ▸ hscan0
      by_cases hkq : k = q
      · subst hkq
        simp [lookupBlock] at hlook
        subst hlook
        simpa using hf
      · simp only [lookupBlock, if_neg hkq] at hlook
        exact ih hstl hscan q iq hlook hq

/-- When the scan fails, no tracked block fits the request. -/
theorem allocateScan_none {bs : Registry} {b a : Nat}
    (h : allocateScan bs b a = none) :
    ∀ q iq, lookupBlock bs q = some iq → block_fits iq b a = false := by
  induction bs with
  | nil => intro q iq hlook; simp [lookupBlock] at hlook
  | cons hd tl ih =>
    obtain ⟨k, info⟩ := hd
    intro q iq hlook
    by_cases hf : block_fits info b a
    · simp [allocateScan, hf] at h
    · simp only [allocateScan, if_neg hf, Option.map_eq_none'] at h
      by_cases hkq : k = q
      · subst hkq
        simp [lookupBlock] at hlook
        subst hlook
        simpa using hf
      · simp only [lookupBlock, if_neg hkq] at hlook
        exact ih h q iq hlook

/-- Completeness of the first-fit scan: if a tracked block `X` fits and
no tracked block at a smaller address fits, the scan returns `X`. -/
theorem allocateScan_complete {bs : Registry} {b a X : Nat} {i : BlockInfo}
    (hs : RegSorted bs) (hlook : lookupBlock bs X = some i)
    (hfit : block_fits i b a = true)
    (hfirst : ∀ q iq, lookupBlock bs q = some iq → q < X →
      block_fits iq b a = false) :
    (allocateScan bs b a).map Prod.fst = some X := by
  induction bs with
  | nil => simp [lookupBlock] at hlook
  | cons hd tl ih =>
    obtain ⟨k, info⟩ := hd
    obtain ⟨hlt, hstl⟩ := regSorted_cons hs
    by_cases hkX : k = X
    · subst hkX
      simp [lookupBlock] at hlook
      subst hlook
      simp [allocateScan, hfit]
    · simp only [lookupBlock, if_neg hkX] at hlook
      have hkx : k < X := hlt X (lookupBlock_mem hlook)
      have hkfits : block_fits info b a = false :=
        hfirst k info (by simp [lookupBlock]) hkx
      have hrec := ih hstl hlook (fun q iq hq hqx => by
        have hklt : k < q := hlt q (lookupBlock_mem hq)
        have hkq : k ≠ q := by omega
        exact hfirst q iq (by simp [lookupBlock, hkq, hq]) hqx)
      simp only [allocateScan, hkfits, Bool.false_eq_true, if_false]
      rw [Option.map_map]
      simpa using hrec

/-- Registering a fresh block: the new address maps to the new info,
every other address is untouched. -/
theorem mapEmplace_lookup {bs : Registry} {k : Nat} (v : BlockInfo)
    (h : lookupBlock bs k = none) :
    lookupBlock (mapEmplace bs k v) k = some v ∧
      ∀ q, q ≠ k → lookupBlock (mapEmplace bs k v) q = lookupBlock bs q := by
  induction bs with
  | nil =>
    refine ⟨by simp [mapEmplace, lookupBlock], ?_⟩
    intro q hq
    simp [mapEmplace, lookupBlock, Ne.symm hq]
  | cons hd tl ih =>
    obtain ⟨k0, v0⟩ := hd
    have hk0 : k0 ≠ k := by
      intro hk0
      simp [lookupBlock, hk0] at h
    simp only [lookupBlock, if_neg hk0] at h
    obtain ⟨ih1, ih2⟩ := ih h
    by_cases hlt : k < k0
    · refine ⟨by simp [mapEmplace, hlt, lookupBlock], ?_⟩
      intro q hq
      simp [mapEmplace, if_pos hlt, lookupBlock, Ne.symm hq]
    · have hne : ¬ k = k0 := fun h => hk0 h.symm
      refine ⟨?_, ?_⟩
      · simp [mapEmplace, hlt, hne, lookupBlock, hk0, ih1]
      · intro q hq
        by_cases hk0q : k0 = q
        · subst hk0q
          simp [mapEmplace, hlt, hne, lookupBlock]
        · simp [mapEmplace, hlt, hne, lookupBlock, hk0q, ih2 q hq]

/-- `do_deallocate` never adds or removes registry entries: the key
sequence (hence the map ordering) is preserved. -/
theorem deallocGo_keys (bs : Registry) (p : Nat) :
    ((deallocGo bs p).2).map Prod.fst = bs.map Prod.fst := by
  induction bs with
  | nil => simp [deallocGo]
  | cons hd tl ih =>
    obtain ⟨k, info⟩ := hd
    by_cases hk : k = p
    · by_cases ha : info.active <;> simp [deallocGo, hk, ha]
    · simp [deallocGo, hk, ih]

/-- Deallocating an untracked address: the unknown-pointer diagnostic,
registry unchanged. -/
theorem deallocGo_not_tracked {bs : Registry} {p : Nat}
    (h : lookupBlock bs p = none) : deallocGo bs p = (.unknownPointer, bs) := by
  induction bs with
  | nil => simp [deallocGo]
  | cons hd tl ih =>
    obtain ⟨k, info⟩ := hd
    have hk : k ≠ p := by
      intro hk
      simp [lookupBlock, hk] at h
    simp only [lookupBlock, if_neg hk] at h
    simp [deallocGo, hk, ih h]

/-- Deallocating a tracked block that is already free: the double-free
logic error is raised and the registry is unchanged. -/
theorem deallocGo_double {bs : Registry} {p : Nat} {i : BlockInfo}
    (h : lookupBlock bs p = some i) (ha : i.active = false) :
    deallocGo bs p = (.doubleFree, bs) := by
  induction bs with
  | nil => simp [lookupBlock] at h
  | cons hd tl ih =>
    obtain ⟨k, info⟩ := hd
    by_cases hk : k = p
    · simp only [lookupBlock, if_pos hk] at h
      obtain rfl : info = i := Option.some.injEq .. ▸ h
      simp [deallocGo, hk, ha]
    · simp only [lookupBlock, if_neg hk] at h
      simp [deallocGo, hk, ih h]

/-- Deallocating a tracked active block: success, the block is marked
free but retained with its recorded size and alignment, and every other
address is untouched. -/
theorem deallocGo_ok {bs : Registry} {p : Nat} {i : BlockInfo}
    (h : lookupBlock bs p = some i) (ha : i.active = true) :
    (deallocGo bs p).1 = .ok ∧
      lookupBlock (deallocGo bs p).2 p = some { i with active := false } ∧
      ∀ q, q ≠ p → lookupBlock (deallocGo bs p).2 q = lookupBlock bs q := by
  induction bs with
  | nil => simp [lookupBlock] at h
  | cons hd tl ih =>
    obtain ⟨k, info⟩ := hd
    by_cases hk : k = p
    · simp only [lookupBlock, if_pos hk] at h
      obtain rfl : info = i := Option.some.injEq .. ▸ h
      subst hk
      refine ⟨by simp [deallocGo, ha], by simp [deallocGo, ha, lookupBlock], ?_⟩
      intro q hq
      simp [deallocGo, ha, lookupBlock, Ne.symm hq]
    · simp only [lookupBlock, if_neg hk] at h
      obtain ⟨ih1, ih2, ih3⟩ := ih h
      refine ⟨by simp [deallocGo, hk, ih1], ?_, ?_⟩
      · have hkp : k ≠ p := hk
        simp [deallocGo, hk, lookupBlock, hkp, ih2]
      · intro q hq
        by_cases hkq : k = q
        · subst hkq
          simp [deallocGo, hk, lookupBlock]
        · simp [deallocGo, hk, lookupBlock, hkq, ih3 q hq]

/-! ## Claim theorems -/

/-- Claim C1, counterexample to the claim as stated: for lists A
(resource 1) and B (resource 2) with unequal allocator handles,
`A = B` does NOT leave A bound to the source's allocator: the
subsequent `get_allocator`/`is_equal` test matches A's original
resource 1 and fails against B's resource 2, because `swap` exchanges
only `head` and `list_size`. -/
theorem copy_assign_rebinding_false :
    do_is_equal (get_allocator
        (copyAssign (⟨[⟨5, 1⟩], 1, 1⟩ : SLList Nat) ⟨[⟨7, 2⟩, ⟨8, 2⟩], 2, 2⟩)) 2 = false ∧
      do_is_equal (get_allocator
        (copyAssign (⟨[⟨5, 1⟩], 1, 1⟩ : SLList Nat) ⟨[⟨7, 2⟩, ⟨8, 2⟩], 2, 2⟩)) 1 = true := by
  decide

/-- Claim C1 (amended): for lists A and B with unequal allocator
handles, `A = B` yields A holding B's element sequence as a deep copy
whose nodes were built with the source's allocator, but A stays bound
to its own original allocator — the pointer/count swap does not touch
the `alloc` member. -/
theorem copy_assign_cross_resource {T : Type} (a b : SLList T)
    (h : a.alloc ≠ b.alloc) :
    copyAssign a b
      = { elems := b.elems.map (fun n => { value := n.value, res := b.alloc }),
          list_size := b.elems.length, alloc := a.alloc } := by
  simp [copyAssign, h, SLList.swap, copyCtor, copy_nodes, SLList.mkEmpty]

/-- Witness for `copy_assign_cross_resource` at lists bound to
resources 1 and 2. -/
theorem copy_assign_cross_resource_witness :
    copyAssign (⟨[⟨5, 1⟩], 1, 1⟩ : SLList Nat) ⟨[⟨7, 2⟩, ⟨8, 2⟩], 2, 2⟩
      = { elems := [⟨7, 2⟩, ⟨8, 2⟩], list_size := 2, alloc := 1 } :=
  copy_assign_cross_resource ⟨[⟨5, 1⟩], 1, 1⟩ ⟨[⟨7, 2⟩, ⟨8, 2⟩], 2, 2⟩ (by decide)

/-- Claim C2 (code behaviour at the failing input): `before_begin()`
and `end()` both return the null cursor and compare equal, and
`insert_after` given the terminal end cursor of the one-element list
[1] does not fail with a logic error — it inserts 2 at the front,
yielding [2, 1] and a cursor to the new head. -/
theorem insert_after_end_inserts_no_error :
    before_begin (⟨[⟨1, 7⟩], 1, 7⟩ : SLList Nat) = listEnd (⟨[⟨1, 7⟩], 1, 7⟩ : SLList Nat) ∧
      insert_after (⟨[⟨1, 7⟩], 1, 7⟩ : SLList Nat) (listEnd ⟨[⟨1, 7⟩], 1, 7⟩) 2
        = .ok (⟨[⟨2, 7⟩, ⟨1, 7⟩], 2, 7⟩, some 0) := by
  constructor
  · rfl
  · rfl

/-- Claim C6: move-assignment between lists with unequal allocator
handles deep-copies the source's values into the target through the
target's own allocator and leaves the source completely unmodified. -/
theorem move_assign_cross_resource {T : Type} (a b : SLList T)
    (h : a.alloc ≠ b.alloc) :
    moveAssign a b
      = ({ elems := b.elems.map (fun n => { value := n.value, res := a.alloc }),
           list_size := b.elems.length, alloc := a.alloc }, b) := by
  simp [moveAssign, h, copy_nodes, destroy_all]

/-- Witness for `move_assign_cross_resource` at lists bound to
resources 1 and 2. -/
theorem move_assign_cross_resource_witness :
    moveAssign (⟨[⟨5, 1⟩], 1, 1⟩ : SLList Nat) ⟨[⟨7, 2⟩, ⟨8, 2⟩], 2, 2⟩
      = ({ elems := [⟨7, 1⟩, ⟨8, 1⟩], list_size := 2, alloc := 1 }, ⟨[⟨7, 2⟩, ⟨8, 2⟩], 2, 2⟩) :=
  move_assign_cross_resource ⟨[⟨5, 1⟩], 1, 1⟩ ⟨[⟨7, 2⟩, ⟨8, 2⟩], 2, 2⟩ (by decide)

/-- Claim C8: `push_front(v)` followed by `pop_front()` restores the
list to its prior observable state — same element sequence, same size
(and same allocator binding). -/
theorem push_pop_roundtrip {T : Type} (l : SLList T) (v : T) :
    pop_front (push_front l v) = .ok l := by
  cases l
  simp [pop_front, push_front]

/-- Claim C9: `do_deallocate` produces the identical outcome — status
and resulting registry — for any two choices of the `bytes` and
`alignment` arguments; only the address and the recorded bookkeeping
matter. -/
theorem dealloc_ignores_size_args (r : CustomMemoryResource) (ptr b1 a1 b2 a2 : Nat) :
    do_deallocate r ptr b1 a1 = do_deallocate r ptr b2 a2 := rfl

/-- Claim C10: incrementing a cursor whose node pointer is null is a
safe no-op, so advancing the terminal cursor any number of times
leaves it equal to `end()`. -/
theorem iter_inc_end_fixed {T : Type} (l : SLList T) (k : Nat) :
    iterInc l (listEnd l) = listEnd l ∧
      (iterInc l)^[k] (listEnd l) = listEnd l := by
  refine ⟨rfl, ?_⟩
  induction k with
  | zero => rfl
  | succ n ih =>
    rw [Function.iterate_succ_apply]
    exact ih

/-- Claim C7: in every list state reachable through the public
operations, `size()` equals the length of the node chain reachable
from head (finite and acyclic by construction of the embedding), and
`empty()` holds iff `size()` is zero. -/
theorem size_invariant {T : Type} (l : SLList T) (h : Reachable l) :
    l.size = l.elems.length ∧ (l.empty = true ↔ l.size = 0) := by
  refine ⟨?_, by simp [SLList.empty, SLList.size]⟩
  show l.list_size = l.elems.length
  induction h with
  | construct resource => rfl
  | push_step l v _ ih => simp [push_front, ih]
  | pop_step l l' _ hpop ih =>
    cases hel : l.elems with
    | nil => simp [pop_front, hel] at hpop
    | cons x rest =>
      simp only [pop_front, hel] at hpop
      obtain rfl : _ = l' := Except.ok.injEq .. ▸ hpop
      simp only
      rw [ih, hel]
      simp
  | insert_step l c v l' c' _ hins ih =>
    cases c with
    | none =>
      simp only [insert_after, Except.ok.injEq, Prod.mk.injEq] at hins
      obtain ⟨rfl, -⟩ := hins
      simp [push_front, ih]
    | some i =>
      simp only [insert_after, Except.ok.injEq, Prod.mk.injEq] at hins
      obtain ⟨rfl, -⟩ := hins
      simp only [List.length_append, List.length_cons, List.length_take, List.length_drop]
      omega
  | erase_step l c l' c' _ hers ih =>
    cases c with
    | none => simp [erase_after] at hers
    | some i =>
      by_cases hlen : i + 1 < l.elems.length
      · simp only [erase_after, if_pos hlen, Except.ok.injEq, Prod.mk.injEq] at hers
        obtain ⟨rfl, -⟩ := hers
        simp only [List.length_append, List.length_take, List.length_drop]
        omega
      · simp [erase_after, hlen] at hers
  | clear_step l _ ih => simp [SLList.clear, destroy_all]
  | copy_ctor_step l _ ih => simp [copyCtor, copy_nodes, SLList.mkEmpty]
  | move_ctor_new l _ ih => simpa [moveCtor] using ih
  | move_ctor_src l _ ih => simp [moveCtor]
  | copy_assign_step a b _ _ iha ihb =>
    by_cases hal : a.alloc = b.alloc
    · simp [copyAssign, hal, copy_nodes, destroy_all]
    · simp [copyAssign, hal, SLList.swap, copyCtor, copy_nodes, SLList.mkEmpty]
  | move_assign_tgt a b _ _ iha ihb =>
    by_cases hal : a.alloc = b.alloc
    · simpa [moveAssign, hal] using ihb
    · simp [moveAssign, hal, copy_nodes, destroy_all]
  | move_assign_src a b _ _ iha ihb =>
    by_cases hal : a.alloc = b.alloc
    · simp [moveAssign, hal]
    · simpa [moveAssign, hal] using ihb

/-- Witness for `size_invariant` at the list obtained by pushing 3
onto a fresh list bound to resource 7. -/
theorem size_invariant_witness :
    (push_front (SLList.mkEmpty Nat 7) 3).size
        = (push_front (SLList.mkEmpty Nat 7) 3).elems.length ∧
      ((push_front (SLList.mkEmpty Nat 7) 3).empty = true
        ↔ (push_front (SLList.mkEmpty Nat 7) 3).size = 0) :=
  size_invariant _ (Reachable.push_step _ 3 (Reachable.construct 7))

/-- Claim C3: `do_allocate` is first-fit by ascending address — for a
request `(bytes, alignment)` with `bytes > 0` and `alignment` a power
of two, it returns the first tracked block (in address order) that is
free with recorded size ≥ bytes and recorded alignment ≥ alignment,
marking exactly that block active and returning its address unchanged;
when no tracked block qualifies it returns the fresh upstream block of
exactly `(bytes, alignment)`, registered active. -/
theorem do_allocate_first_fit (r : CustomMemoryResource)
    (bytes alignment upstream p : Nat) (r' : CustomMemoryResource)
    (hs : RegSorted r.allocated_blocks)
    (hb : 0 < bytes) (hal : ∃ k, alignment = 2 ^ k)
    (hfresh : lookupBlock r.allocated_blocks upstream = none)
    (heq : do_allocate r bytes alignment upstream = (p, r')) :
    (∃ info, lookupBlock r.allocated_blocks p = some info ∧
       info.active = false ∧ bytes ≤ info.size ∧ alignment ≤ info.alignment ∧
       (∀ q iq, lookupBlock r.allocated_blocks q = some iq → q < p →
          block_fits iq bytes alignment = false) ∧
       lookupBlock r'.allocated_blocks p = some { info with active := true } ∧
       (∀ q, q ≠ p →
          lookupBlock r'.allocated_blocks q = lookupBlock r.allocated_blocks q)) ∨
    ((∀ q iq, lookupBlock r.allocated_blocks q = some iq →
        block_fits iq bytes alignment = false) ∧
      p = upstream ∧
      lookupBlock r'.allocated_blocks upstream = some (BlockInfo.fresh bytes alignment) ∧
      (∀ q, q ≠ upstream →
        lookupBlock r'.allocated_blocks q = lookupBlock r.allocated_blocks q)) := by
  cases hscan : allocateScan r.allocated_blocks bytes alignment with
  | some pr =>
    obtain ⟨p0, bs⟩ := pr
    simp only [do_allocate, hscan] at heq
    injection heq with hp hr
    subst hp
    subst hr
    obtain ⟨info, hlook, hfits, hlook', hother⟩ := allocateScan_lookup hs hscan
    left
    have hf : (info.active = false ∧ bytes ≤ info.size) ∧ alignment ≤ info.alignment := by
      simpa [block_fits] using hfits
    exact ⟨info, hlook, hf.1.1, hf.1.2, hf.2, allocateScan_first hs hscan, hlook', hother⟩
  | none =>
    simp only [do_allocate, hscan] at heq
    injection heq with hp hr
    subst hp
    subst hr
    obtain ⟨h1, h2⟩ := mapEmplace_lookup (BlockInfo.fresh bytes alignment) hfresh
    exact Or.inr ⟨allocateScan_none hscan, rfl, h1, h2⟩

/-- Witness for `do_allocate_first_fit`: a registry with one free
16-byte, 8-aligned block at address 4 serves an 8-byte, 8-aligned
request by reusing address 4. -/
theorem do_allocate_first_fit_witness :
    (∃ info, lookupBlock [(4, ⟨16, 8, false⟩)] 4 = some info ∧
       info.active = false ∧ 8 ≤ info.size ∧ 8 ≤ info.alignment ∧
       (∀ q iq, lookupBlock [(4, ⟨16, 8, false⟩)] q = some iq → q < 4 →
          block_fits iq 8 8 = false) ∧
       lookupBlock [(4, ⟨16, 8, true⟩)] 4 = some { info with active := true } ∧
       (∀ q, q ≠ 4 →
          lookupBlock [(4, ⟨16, 8, true⟩)] q = lookupBlock [(4, ⟨16, 8, false⟩)] q)) ∨
    ((∀ q iq, lookupBlock [(4, ⟨16, 8, false⟩)] q = some iq →
        block_fits iq 8 8 = false) ∧
      (4 : Nat) = 20 ∧
      lookupBlock [(4, ⟨16, 8, true⟩)] 20 = some (BlockInfo.fresh 8 8) ∧
      (∀ q, q ≠ 20 →
        lookupBlock [(4, ⟨16, 8, true⟩)] q = lookupBlock [(4, ⟨16, 8, false⟩)] q)) :=
  do_allocate_first_fit ⟨[(4, ⟨16, 8, false⟩)]⟩ 8 8 20 4 ⟨[(4, ⟨16, 8, true⟩)]⟩
    (by decide) (by decide) ⟨3, rfl⟩ (by decide) (by decide)

/-- Claim C4: `do_deallocate(a, bytes, alignment)` — an untracked
address is a never-failing no-op leaving the registry unchanged; a
tracked block already marked free raises the double-free logic error
with the registry unchanged; a tracked active block is marked free but
retained in the registry (same keys, same recorded size/alignment,
every other entry untouched). -/
theorem do_deallocate_cases (r : CustomMemoryResource) (a bytes alignment : Nat) :
    (lookupBlock r.allocated_blocks a = none →
       do_deallocate r a bytes alignment = (.unknownPointer, r)) ∧
    (∀ info, lookupBlock r.allocated_blocks a = some info → info.active = false →
       do_deallocate r a bytes alignment = (.doubleFree, r)) ∧
    (∀ info, lookupBlock r.allocated_blocks a = some info → info.active = true →
       (do_deallocate r a bytes alignment).1 = .ok ∧
       lookupBlock (do_deallocate r a bytes alignment).2.allocated_blocks a
         = some { info with active := false } ∧
       (∀ q, q ≠ a →
          lookupBlock (do_deallocate r a bytes alignment).2.allocated_blocks q
            = lookupBlock r.allocated_blocks q) ∧
       (do_deallocate r a bytes alignment).2.allocated_blocks.map Prod.fst
         = r.allocated_blocks.map Prod.fst) := by
  obtain ⟨bs⟩ := r
  refine ⟨?_, ?_, ?_⟩
  · intro h
    simp [do_deallocate, deallocGo_not_tracked h]
  · intro info h ha
    simp [do_deallocate, deallocGo_double h ha]
  · intro info h ha
    obtain ⟨h1, h2, h3⟩ := deallocGo_ok h ha
    exact ⟨by simpa [do_deallocate] using h1,
      by simpa [do_deallocate] using h2,
      fun q hq => by simpa [do_deallocate] using h3 q hq,
      by simpa [do_deallocate] using deallocGo_keys bs a⟩

/-- Witness for `do_deallocate_cases`: the three cases at a singleton
registry holding address 3. -/
theorem do_deallocate_cases_witness :
    do_deallocate ⟨[(3, ⟨8, 4, true⟩)]⟩ 5 0 0 = (.unknownPointer, ⟨[(3, ⟨8, 4, true⟩)]⟩) ∧
    do_deallocate ⟨[(3, ⟨8, 4, false⟩)]⟩ 3 0 0 = (.doubleFree, ⟨[(3, ⟨8, 4, false⟩)]⟩) ∧
    ((do_deallocate ⟨[(3, ⟨8, 4, true⟩)]⟩ 3 0 0).1 = .ok ∧
      lookupBlock (do_deallocate ⟨[(3, ⟨8, 4, true⟩)]⟩ 3 0 0).2.allocated_blocks 3
        = some ⟨8, 4, false⟩ ∧
      (∀ q, q ≠ 3 →
         lookupBlock (do_deallocate ⟨[(3, ⟨8, 4, true⟩)]⟩ 3 0 0).2.allocated_blocks q
           = lookupBlock [(3, ⟨8, 4, true⟩)] q) ∧
      (do_deallocate ⟨[(3, ⟨8, 4, true⟩)]⟩ 3 0 0).2.allocated_blocks.map Prod.fst
        = [(3, (⟨8, 4, true⟩ : BlockInfo))].map Prod.fst) :=
  ⟨(do_deallocate_cases ⟨[(3, ⟨8, 4, true⟩)]⟩ 5 0 0).1 (by decide),
   (do_deallocate_cases ⟨[(3, ⟨8, 4, false⟩)]⟩ 3 0 0).2.1 ⟨8, 4, false⟩ (by decide) rfl,
   (do_deallocate_cases ⟨[(3, ⟨8, 4, true⟩)]⟩ 3 0 0).2.2 ⟨8, 4, true⟩ (by decide) rfl⟩

/-- Claim C5: after deallocating a tracked active block at address X,
an allocate request of no more than the block's recorded size and
alignment — with no qualifying free block at a lower address — returns
exactly X. -/
theorem dealloc_then_alloc_reuses (r : CustomMemoryResource)
    (X db da b' a' u : Nat) (info : BlockInfo)
    (hs : RegSorted r.allocated_blocks)
    (hX : lookupBlock r.allocated_blocks X = some info)
    (hact : info.active = true)
    (hb : b' ≤ info.size) (ha : a' ≤ info.alignment)
    (hfirst : ∀ q iq,
        lookupBlock (do_deallocate r X db da).2.allocated_blocks q = some iq →
        q < X → block_fits iq b' a' = false) :
    (do_allocate (do_deallocate r X db da).2 b' a' u).1 = X := by
  obtain ⟨bs⟩ := r
  obtain ⟨-, h2, -⟩ := deallocGo_ok hX hact
  have hbs' : (do_deallocate ⟨bs⟩ X db da).2.allocated_blocks = (deallocGo bs X).2 := rfl
  have hs' : RegSorted (deallocGo bs X).2 := by
    unfold RegSorted
    rw [deallocGo_keys]
    exact hs
  have hfit : block_fits { info with active := false } b' a' = true := by
    simp [block_fits, hb, ha]
  have hfirst' : ∀ q iq, lookupBlock (deallocGo bs X).2 q = some iq → q < X →
      block_fits iq b' a' = false := by
    intro q iq hq hlt
    exact hfirst q iq (hbs' ▸ hq) hlt
  have hscan := allocateScan_complete hs' (hbs' ▸ h2) hfit hfirst'
  cases hres : allocateScan (deallocGo bs X).2 b' a' with
  | some pr =>
    obtain ⟨p0, bs'⟩ := pr
    rw [hres] at hscan
    have hp : p0 = X := by simpa using hscan
    simp [do_allocate, hbs', hres, hp]
  | none =>
    rw [hres] at hscan
    simp at hscan

/-- Witness for `dealloc_then_alloc_reuses`: deallocating the active
100-byte block at address 10 and re-requesting 100 bytes, 8-aligned,
returns address 10 again. -/
theorem dealloc_then_alloc_reuses_witness :
    (do_allocate (do_deallocate ⟨[(10, ⟨100, 8, true⟩)]⟩ 10 100 8).2 100 8 99).1 = 10 :=
  dealloc_then_alloc_reuses ⟨[(10, ⟨100, 8, true⟩)]⟩ 10 100 8 100 8 99 ⟨100, 8, true⟩
    (by decide) (by decide) rfl (by decide) (by decide)
    (by
      intro q iq hq hlt
      by_cases h10 : (10 : Nat) = q
      · omega
      · simp [do_deallocate, deallocGo, lookupBlock, h10] at hq)
